import Mathlib

/-!
Shallow embedding of the penne client core: the identifier scheme of
src/client/messages.py and the table mirror plus capability injection of
src/client/delegates.py.  A pandas dataframe is modelled as a column list,
an integer row index and row-major cell data; a cell is an Option value,
with none standing for a missing value (NaN).  The pandas operations the
source calls (combine_first, update, drop, concat, loc) are modelled for
the label regimes the client produces; each model carries a comment on
the pandas behaviour it captures.
-/

namespace Penne

/-- Number of decimal digits of a natural number; this is the length of
the Python string str(n) for a nonnegative n. -/
def numDigits (n : Nat) : Nat :=
  if h : n < 10 then 1 else numDigits (n / 10) + 1
termination_by n
decreasing_by
  exact Nat.div_lt_self (by omega) (by omega)

/-- Python arithmetic right shift on integers: x >> p is floor division
by 2 ^ p (Python shifts negative integers with sign extension). -/
def pyShiftRight (x : Int) (p : Nat) : Int := Int.fdiv x ((2 : Int) ^ p)

/-- IDGroup of src/client/messages.py: a slot and a generation naming one
remote object instance.  Python integers are modelled as Int. -/
structure IDGroup where
  slot : Int
  gen : Int
deriving DecidableEq

/-- The id field set by IDGroup.__post_init__: the pair as a list. -/
def IDGroup.idList (g : IDGroup) : List Int := [g.slot, g.gen]

/-- IDGroup.__hash__ (src/client/messages.py lines 36-39):
places = len(str(abs(gen))); hash = slot + (gen >> places). -/
def IDGroup.pyHash (g : IDGroup) : Int :=
  g.slot + pyShiftRight g.gen (numDigits g.gen.natAbs)

/-- Model of a pandas DataFrame as used by the table mirror: a list of
column names, an integer label index, and row-major cell data.  A cell
holds Option values, none playing the role of NaN. -/
structure DataFrame (α : Type) where
  cols : List String
  index : List Int
  data : List (List (Option α))
deriving DecidableEq

/-- Label lookup of a row: walks the index and the data together and
returns the first row whose label matches, as pandas label indexing does
on a frame with unique labels. -/
def lookupRow {α : Type} : List Int → List (List (Option α)) → Int → Option (List (Option α))
  | k :: ks, r :: rs, key => if k = key then some r else lookupRow ks rs key
  | _, _, _ => none

/-- Label lookup of a cell inside one row: walks the column names and the
row values together and returns the first value whose column matches. -/
def lookupCell {α : Type} : List String → List (Option α) → String → Option α
  | c :: cs, v :: vs, nm => if c = nm then v else lookupCell cs vs nm
  | _, _, _ => none

/-- The cell of a frame at a row label and a column name; none when the
label or the column is absent (or the stored cell is NaN). -/
def DataFrame.cell {α : Type} (df : DataFrame α) (k : Int) (c : String) : Option α :=
  (lookupRow df.index df.data k).bind (fun row => lookupCell df.cols row c)

/-- pandas Index.union on integer labels: an empty operand or an equal
operand is returned as is, otherwise the union is sorted ascending (for
integer labels the sort always succeeds).  The inputs the client produces
have no duplicate labels. -/
def indexUnion (a b : List Int) : List Int :=
  if b = [] then a
  else if a = [] then b
  else if a = b then a
  else List.insertionSort (· ≤ ·) (a ++ b.filter (fun k => decide (k ∉ a)))

/-- pandas Index.union on column names, with the same fast paths; the
client only ever unions equal column lists. -/
def colsUnion (a b : List String) : List String :=
  if b = [] then a
  else if a = [] then b
  else if a = b then a
  else List.insertionSort (· ≤ ·) (a ++ b.filter (fun c => decide (c ∉ a)))

/-- pandas DataFrame.combine_first: the result ranges over the union of
the two label sets and the union of the two column sets, and each cell
takes the value of the first frame when it is present there and the value
of the second frame otherwise. -/
def DataFrame.combineFirst {α : Type} (df other : DataFrame α) : DataFrame α :=
  let cs := colsUnion df.cols other.cols
  let ix := indexUnion df.index other.index
  ⟨cs, ix, ix.map (fun k => cs.map (fun c => (df.cell k c) <|> (other.cell k c)))⟩

/-- pandas DataFrame.update: keeps the column list and the index of the
receiver unchanged and overwrites exactly the cells for which the other
frame has a value at the same label and column name. -/
def DataFrame.dfUpdate {α : Type} (df other : DataFrame α) : DataFrame α :=
  ⟨df.cols, df.index,
   df.index.map (fun k => df.cols.map (fun c => (other.cell k c) <|> (df.cell k c)))⟩

/-- pandas DataFrame built from a dict of columns with an explicit index,
as in DataFrame(dict(zip(headers, cols)), index=keys): the column names
are the headers zipped against the supplied column lists, and the cell in
row i of a column is element i of its list.  pandas raises when a column
list and the index disagree in length; the theorems below only use
aligned inputs. -/
def mkDataFrameFromCols {α : Type} (colNames : List String) (colVals : List (List α))
    (ix : List Int) : DataFrame α :=
  let pairs := colNames.zip colVals
  ⟨pairs.map (fun p => p.1), ix,
   (List.range ix.length).map (fun i => pairs.map (fun p => p.2[i]?))⟩

/-- pandas DataFrame(row_map, index=headers).transpose(), as built by
update_rows2: the index is the list of row keys in mapping order, the
columns are the headers, and row values are read positionally. -/
def mkDataFrameFromRows {α : Type} (rowMap : List (Int × List α))
    (headers : List String) : DataFrame α :=
  ⟨headers, rowMap.map (fun p => p.1),
   rowMap.map (fun p => (List.range headers.length).map (fun j => p.2[j]?))⟩

/-- Python exceptions surfaced by the modelled pandas calls. -/
inductive PyError where
  | keyError
  | valueError
  | indexError
deriving DecidableEq

deriving instance DecidableEq for Except

/-- TableDelegate.update_rows (src/client/delegates.py lines 188-204):
builds a frame from the column lists keyed by the given row keys and
replaces the stored frame with new_df.combine_first(old). -/
def update_rows {α : Type} (keys : List Int) (cols : List (List α))
    (df : DataFrame α) : DataFrame α :=
  let new_df := mkDataFrameFromCols df.cols cols keys
  new_df.combineFirst df

/-- TableDelegate.update_rows2 (src/client/delegates.py lines 206-219):
builds the transposed frame from the row mapping, evaluates a
combine_first whose result the source discards, and applies
DataFrame.update to the stored frame in place. -/
def update_rows2 {α : Type} (new_rows : List (Int × List α))
    (df : DataFrame α) : DataFrame α :=
  let new_df := mkDataFrameFromRows new_rows df.cols
  let _ := new_df.combineFirst df
  df.dfUpdate new_df

/-- TableDelegate.update_cols (src/client/delegates.py lines 222-231):
builds a frame from the column mapping with the default integer index
0..n-1 (the source passes no index) and applies DataFrame.update. -/
def update_cols {α : Type} (new_cols : List (String × List α))
    (df : DataFrame α) : DataFrame α :=
  let n := match new_cols with
    | [] => 0
    | p :: _ => p.2.length
  let new_df := mkDataFrameFromCols (new_cols.map (fun p => p.1))
    (new_cols.map (fun p => p.2)) ((List.range n).map (fun i => Int.ofNat i))
  df.dfUpdate new_df

/-- TableDelegate.insert_rows (src/client/delegates.py lines 158-174):
reads the final label of the index (pandas index[-1], an IndexError on an
empty index), keys the new rows consecutively from that label plus one,
and concatenates.  The first component is the resulting frame, the second
reports a raised exception; on an exception the frame is unchanged. -/
def insert_rows {α : Type} (rows : List (List α))
    (df : DataFrame α) : DataFrame α × Option PyError :=
  match df.index.getLast? with
  | none => (df, some PyError.indexError)
  | some last =>
    let newIndex := (List.range rows.length).map (fun i => last + 1 + (i : Int))
    let newData := rows.map (fun r => (List.range df.cols.length).map (fun j => r[j]?))
    (⟨df.cols, df.index ++ newIndex, df.data ++ newData⟩, none)

/-- TableDelegate.remove_rows (src/client/delegates.py lines 177-185):
pandas drop with the default errors=raise validates every label before
mutating, so a missing label raises KeyError and leaves the frame
untouched; otherwise all rows at the given labels are dropped. -/
def remove_rows {α : Type} (key_list : List Int)
    (df : DataFrame α) : DataFrame α × Option PyError :=
  if key_list.all (fun k => decide (k ∈ df.index)) then
    let kept := (df.index.zip df.data).filter (fun p => decide (p.1 ∉ key_list))
    (⟨df.cols, kept.map (fun p => p.1), kept.map (fun p => p.2)⟩, none)
  else (df, some PyError.keyError)

/-- Selection of src/client/delegates.py: a name, an optional list of
explicit row keys and an optional list of (from, to) ranges. -/
structure Selection where
  name : String
  rows : Option (List Int)
  row_ranges : Option (List (Int × Int))
deriving DecidableEq

/-- Python truthiness of an optional list: None and the empty list are
falsy, a nonempty list is truthy. -/
def truthyList {β : Type} : Option (List β) → Bool
  | some (_ :: _) => true
  | _ => false

/-- Lookup in a string-keyed association list, modelling a Python dict
whose insertion order the list preserves. -/
def lookupStr {β : Type} : String → List (String × β) → Option β
  | _, [] => none
  | k, p :: ps => if p.1 = k then some p.2 else lookupStr k ps

/-- pandas df.loc with a list of labels: returns the rows in the listed
order and raises KeyError when any label is absent. -/
def locList {α : Type} (df : DataFrame α) (keys : List Int) : Except PyError (DataFrame α) :=
  if keys.all (fun k => decide (k ∈ df.index)) then
    Except.ok ⟨df.cols, keys, keys.map (fun k => df.cols.map (fun c => df.cell k c))⟩
  else Except.error PyError.keyError

/-- Whether an integer index is monotonic nondecreasing, the regime in
which pandas label slicing selects by label value. -/
def monotonicIndex : List Int → Bool
  | [] => true
  | [_] => true
  | a :: b :: rest => decide (a ≤ b) && monotonicIndex (b :: rest)

/-- pandas df.loc with a label slice a:b on a monotonic index: the rows
whose label k satisfies a ≤ k ≤ b, both bounds inclusive.  On a
non-monotonic index pandas label slicing needs both endpoints as present
unique labels and otherwise raises; the claims never exercise that case
and it is modelled as the raising branch. -/
def locSlice {α : Type} (df : DataFrame α) (a b : Int) : Except PyError (DataFrame α) :=
  if monotonicIndex df.index then
    let kept := (df.index.zip df.data).filter
      (fun p => decide (a ≤ p.1) && decide (p.1 ≤ b))
    Except.ok ⟨df.cols, kept.map (fun p => p.1), kept.map (fun p => p.2)⟩
  else Except.error PyError.keyError

/-- pd.concat on a nonempty list of frames that share one column list
(every frame built by get_selection slices the same stored frame): labels
and rows are stacked in order. -/
def concatFrames {α : Type} (f : DataFrame α) (fs : List (DataFrame α)) : DataFrame α :=
  ⟨f.cols, f.index ++ (fs.map (fun g => g.index)).flatten,
   f.data ++ (fs.map (fun g => g.data)).flatten⟩

/-- The table mirror state get_selection reads: the stored frame and the
name-keyed selection mapping. -/
structure TableState (α : Type) where
  dataframe : DataFrame α
  selections : List (String × Selection)
deriving DecidableEq

/-- TableDelegate.get_selection (src/client/delegates.py lines 245-273):
an unknown name yields an empty frame with the current columns; otherwise
the explicit rows (when truthy) are fetched with loc in listed order,
each (from, to) range contributes the label slice from : to - 1, and the
collected frames are concatenated.  When both parts are falsy the source
calls pd.concat on an empty list, which raises ValueError. -/
def get_selection {α : Type} (st : TableState α) (nm : String) : Except PyError (DataFrame α) :=
  match lookupStr nm st.selections with
  | none => Except.ok ⟨st.dataframe.cols, [], []⟩
  | some sel =>
    match (if truthyList sel.rows then
        match locList st.dataframe (sel.rows.getD []) with
        | Except.error e => Except.error e
        | Except.ok f => Except.ok [f]
      else Except.ok []) with
    | Except.error e => Except.error e
    | Except.ok f1 =>
      match (if truthyList sel.row_ranges then
          (sel.row_ranges.getD []).mapM (fun r => locSlice st.dataframe r.1 (r.2 - 1))
        else Except.ok []) with
      | Except.error e => Except.error e
      | Except.ok f2 =>
        match f1 ++ f2 with
        | [] => Except.error PyError.valueError
        | f :: fs => Except.ok (concatFrames f fs)

/-- The info record of a Method or Signal delegate, as attached by the
injection helpers: its declared name plus its remaining payload. -/
structure CapInfo where
  name : String
  doc : String
deriving DecidableEq

/-- Lookup in an integer-keyed association list, modelling the per-kind
registry dict of the client object (the client module holds one plain
mapping per kind, per the registry description of the spec). -/
def lookupInt {β : Type} : Int → List (Int × β) → Option β
  | _, [] => none
  | k, p :: ps => if p.1 = k then some p.2 else lookupInt k ps

/-- Python setattr on the attribute dictionary of a delegate: replaces
the value under an existing name, otherwise appends the binding. -/
def setattrCap (attrs : List (String × CapInfo)) (nm : String) (v : CapInfo) :
    List (String × CapInfo) :=
  if attrs.any (fun p => decide (p.1 = nm)) then
    attrs.map (fun p => if p.1 = nm then (nm, v) else p)
  else attrs ++ [(nm, v)]

/-- inject_methods (src/client/delegates.py lines 15-27): for each id in
the list, subscripts the methods registry with id[0]; a plain dict
subscript raises KeyError when the key is absent, otherwise the info of
the found Method delegate is attached under its declared name. -/
def inject_methods (state : List (Int × CapInfo)) :
    List (Int × Int) → List (String × CapInfo) → Except PyError (List (String × CapInfo))
  | [], attrs => Except.ok attrs
  | id :: rest, attrs =>
    match lookupInt id.1 state with
    | none => Except.error PyError.keyError
    | some m => inject_methods state rest (setattrCap attrs m.name m)

/-- inject_signals (src/client/delegates.py lines 29-33): identical to
inject_methods over the signals registry. -/
def inject_signals (state : List (Int × CapInfo)) :
    List (Int × Int) → List (String × CapInfo) → Except PyError (List (String × CapInfo))
  | [], attrs => Except.ok attrs
  | id :: rest, attrs =>
    match lookupInt id.1 state with
    | none => Except.error PyError.keyError
    | some m => inject_signals state rest (setattrCap attrs m.name m)

/-- The create and update message fields TableDelegate.on_new and
on_update read: id, optional name and optional method and signal id
lists (raw slot, generation pairs). -/
structure TableMsg where
  id : Int × Int
  name : Option String
  methods_list : Option (List (Int × Int))
  signals_list : Option (List (Int × Int))
deriving DecidableEq

/-- Python truthiness of an optional string: None and the empty string
are falsy. -/
def truthyStr : Option String → Bool
  | some s => decide (s ≠ "")
  | none => false

/-- The per-delegate state the lifecycle hooks touch: the id, the name,
the mirrored frame (none before any reset), the selection mapping, and
the attribute dictionary receiving injected capabilities. -/
structure TableDelegateState (α : Type) where
  id : Option (Int × Int)
  name : String
  dataframe : Option (DataFrame α)
  selections : List (String × Selection)
  attrs : List (String × CapInfo)
deriving DecidableEq

/-- A fresh TableDelegate as built by __init__. -/
def initTableDelegate (α : Type) : TableDelegateState α :=
  ⟨none, "Table Delegate", none, [], []⟩

/-- TableDelegate.on_new (src/client/delegates.py lines 282-298): stores
the id, takes the message name when truthy, injects methods then signals
when their lists are truthy, then resets the table (blank frame, cleared
selections) and relinks the signal table (the latter touches only the
bound-method dict, not the injected attributes).  A raising injection
propagates out of the handler. -/
def on_new {α : Type} (mstate sstate : List (Int × CapInfo)) (msg : TableMsg)
    (d : TableDelegateState α) : Except PyError (TableDelegateState α) := do
  let nm := if truthyStr msg.name then msg.name.getD "" else d.name
  let a1 ←
    if truthyList msg.methods_list then inject_methods mstate (msg.methods_list.getD []) d.attrs
    else pure d.attrs
  let a2 ←
    if truthyList msg.signals_list then inject_signals sstate (msg.signals_list.getD []) a1
    else pure a1
  pure ⟨some msg.id, nm, some ⟨[], [], []⟩, [], a2⟩

/-- TableDelegate.on_update (src/client/delegates.py lines 300-303): only
relinks the signal table, which rebinds the same bound methods; the
modelled state is unchanged and no injection is re-run. -/
def on_update {α : Type} (d : TableDelegateState α) : TableDelegateState α := d

/-- One lifecycle message addressed to a table delegate. -/
inductive TableLifecycleMsg where
  | create (msg : TableMsg)
  | update (msg : TableMsg)
deriving DecidableEq

/-- Whether a lifecycle message is a create. -/
def isCreateMsg : TableLifecycleMsg → Bool
  | .create _ => true
  | .update _ => false

/-- Routing one lifecycle message to the matching handler. -/
def applyLifecycleMsg {α : Type} (mstate sstate : List (Int × CapInfo))
    (d : TableDelegateState α) : TableLifecycleMsg → Except PyError (TableDelegateState α)
  | .create msg => on_new mstate sstate msg d
  | .update _ => Except.ok (on_update d)

/-- Sequential application of a list of lifecycle messages, the ordered
single-stream model of the client. -/
def applyLifecycleSeq {α : Type} (mstate sstate : List (Int × CapInfo))
    (d : TableDelegateState α) : List TableLifecycleMsg → Except PyError (TableDelegateState α)
  | [] => Except.ok d
  | m :: ms => do
    applyLifecycleSeq mstate sstate (← applyLifecycleMsg mstate sstate d m) ms

/-! Helper lemmas. -/

theorem numDigits_eq_log (n : Nat) : numDigits n = Nat.log 10 n + 1 := by
  induction n using Nat.strong_induction_on with
  | _ n ih =>
    rw [numDigits]
    split
    · rename_i h
      rw [Nat.log_eq_zero_iff.mpr (Or.inl h)]
    · rename_i h
      rw [ih (n / 10) (Nat.div_lt_self (by omega) (by omega))]
      have hl := Nat.log_div_base 10 n
      have hp : 0 < Nat.log 10 n := Nat.log_pos (by omega) (by omega)
      omega

theorem setattrCap_any_self (attrs : List (String × CapInfo)) (nm : String) (v : CapInfo) :
    (setattrCap attrs nm v).any (fun p => decide (p.1 = nm)) = true := by
  unfold setattrCap
  split
  · rename_i h
    rw [List.any_eq_true] at h ⊢
    obtain ⟨p, hp, hpn⟩ := h
    simp only [decide_eq_true_eq] at hpn
    refine ⟨(nm, v), List.mem_map.mpr ⟨p, hp, by rw [if_pos hpn]⟩, by simp⟩
  · rw [List.any_eq_true]
    exact ⟨(nm, v), List.mem_append_right _ (by simp), by simp⟩

theorem setattrCap_any_mono (attrs : List (String × CapInfo)) (nm n : String) (v : CapInfo)
    (h : attrs.any (fun p => decide (p.1 = n)) = true) :
    (setattrCap attrs nm v).any (fun p => decide (p.1 = n)) = true := by
  by_cases hn : n = nm
  · subst hn
    exact setattrCap_any_self attrs n v
  · unfold setattrCap
    split
    · rw [List.any_eq_true] at h ⊢
      obtain ⟨p, hp, hpn⟩ := h
      simp only [decide_eq_true_eq] at hpn
      refine ⟨p, List.mem_map.mpr ⟨p, hp, ?_⟩, by simpa using hpn⟩
      rw [if_neg]
      rw [hpn]
      exact fun hc => hn hc
    · rw [List.any_eq_true] at h ⊢
      obtain ⟨p, hp, hpn⟩ := h
      exact ⟨p, List.mem_append_left _ hp, hpn⟩

theorem inject_methods_any_mono (state : List (Int × CapInfo)) (ids : List (Int × Int))
    (n : String) :
    ∀ (attrs attrs2 : List (String × CapInfo)),
      inject_methods state ids attrs = Except.ok attrs2 →
      attrs.any (fun p => decide (p.1 = n)) = true →
      attrs2.any (fun p => decide (p.1 = n)) = true := by
  induction ids with
  | nil =>
    intro attrs attrs2 hok h
    unfold inject_methods at hok
    cases hok
    exact h
  | cons id rest ih =>
    intro attrs attrs2 hok h
    unfold inject_methods at hok
    cases hm : lookupInt id.1 state with
    | none =>
      rw [hm] at hok
      cases hok
    | some m =>
      rw [hm] at hok
      exact ih _ _ hok (setattrCap_any_mono attrs m.name n m h)

theorem inject_methods_all_found (state : List (Int × CapInfo)) (ids : List (Int × Int)) :
    ∀ (attrs : List (String × CapInfo)),
      (∀ id ∈ ids, (lookupInt id.1 state).isSome = true) →
      ∃ a2, inject_methods state ids attrs = Except.ok a2 ∧
        ∀ id ∈ ids, ∀ m, lookupInt id.1 state = some m →
          a2.any (fun p => decide (p.1 = m.name)) = true := by
  induction ids with
  | nil =>
    intro attrs _
    exact ⟨attrs, rfl, fun id h => absurd h (List.not_mem_nil id)⟩
  | cons id rest ih =>
    intro attrs hall
    cases hm : lookupInt id.1 state with
    | none =>
      have h1 := hall id (List.mem_cons_self id rest)
      rw [hm] at h1
      cases h1
    | some m =>
      obtain ⟨a2, hok, hprop⟩ :=
        ih (setattrCap attrs m.name m) (fun i hi => hall i (List.mem_cons_of_mem _ hi))
      refine ⟨a2, ?_, ?_⟩
      · unfold inject_methods
        rw [hm]
        exact hok
      · intro i hi m2 hm2
        rcases List.mem_cons.mp hi with hrfl | hrest
        · subst hrfl
          rw [hm] at hm2
          cases hm2
          exact inject_methods_any_mono state rest m.name _ _ hok
            (setattrCap_any_self attrs m.name m)
        · exact hprop i hrest m2 hm2

theorem inject_methods_miss (state : List (Int × CapInfo)) (ids : List (Int × Int)) :
    ∀ (attrs : List (String × CapInfo)),
      (∃ id ∈ ids, lookupInt id.1 state = none) →
      inject_methods state ids attrs = Except.error PyError.keyError := by
  induction ids with
  | nil =>
    intro attrs h
    obtain ⟨id, hid, _⟩ := h
    cases hid
  | cons id rest ih =>
    intro attrs h
    cases hm : lookupInt id.1 state with
    | none =>
      unfold inject_methods
      rw [hm]
    | some m =>
      unfold inject_methods
      rw [hm]
      apply ih
      obtain ⟨i, hi, hnone⟩ := h
      rcases List.mem_cons.mp hi with hrfl | hrest
      · subst hrfl
        rw [hm] at hnone
        cases hnone
      · exact ⟨i, hrest, hnone⟩

theorem lookupRow_map {α : Type} {l : List Int} (g : Int → List (Option α)) {k : Int}
    (hk : k ∈ l) : lookupRow l (l.map g) k = some (g k) := by
  induction l with
  | nil => cases hk
  | cons a t ih =>
    rw [List.map_cons]
    by_cases h : a = k
    · subst h
      simp [lookupRow]
    · have ht : k ∈ t := by
        rcases List.mem_cons.mp hk with h2 | h2
        · exact absurd h2.symm h
        · exact h2
      simp only [lookupRow, if_neg h]
      exact ih ht

theorem lookupRow_not_mem {α : Type} {l : List Int} {k : Int}
    (hk : k ∉ l) : ∀ (data : List (List (Option α))), lookupRow l data k = none := by
  induction l with
  | nil =>
    intro data
    cases data <;> rfl
  | cons a t ih =>
    intro data
    cases data with
    | nil => rfl
    | cons r rs =>
      have hne : ¬ a = k := fun h => hk (h ▸ List.mem_cons_self a t)
      simp only [lookupRow, if_neg hne]
      exact ih (fun h => hk (List.mem_cons_of_mem _ h)) rs

theorem lookupCell_map {α : Type} {cols : List String} (f : String → Option α) {c : String}
    (hc : c ∈ cols) : lookupCell cols (cols.map f) c = f c := by
  induction cols with
  | nil => cases hc
  | cons a t ih =>
    rw [List.map_cons]
    by_cases h : a = c
    · subst h
      simp [lookupCell]
    · have ht : c ∈ t := by
        rcases List.mem_cons.mp hc with h2 | h2
        · exact absurd h2.symm h
        · exact h2
      simp only [lookupCell, if_neg h]
      exact ih ht

theorem lookupCell_not_mem {α : Type} {cols : List String} {c : String}
    (hc : c ∉ cols) : ∀ (row : List (Option α)), lookupCell cols row c = none := by
  induction cols with
  | nil =>
    intro row
    cases row <;> rfl
  | cons a t ih =>
    intro row
    cases row with
    | nil => rfl
    | cons v vs =>
      have hne : ¬ a = c := fun h => hc (h ▸ List.mem_cons_self a t)
      simp only [lookupCell, if_neg hne]
      exact ih (fun h => hc (List.mem_cons_of_mem _ h)) vs

theorem cell_not_mem_cols {α : Type} {df : DataFrame α} {k : Int} {c : String}
    (hc : c ∉ df.cols) : df.cell k c = none := by
  unfold DataFrame.cell
  cases lookupRow df.index df.data k with
  | none => rfl
  | some row =>
    rw [Option.some_bind]
    exact lookupCell_not_mem hc row

theorem cell_not_mem_index {α : Type} {df : DataFrame α} {k : Int} {c : String}
    (hk : k ∉ df.index) : df.cell k c = none := by
  unfold DataFrame.cell
  rw [lookupRow_not_mem hk]
  rfl

theorem cell_mk_map {α : Type} (cols : List String) (ix : List Int)
    (F : Int → String → Option α) {k : Int} {c : String} (hk : k ∈ ix) (hc : c ∈ cols) :
    DataFrame.cell ⟨cols, ix, ix.map (fun k2 => cols.map (fun c2 => F k2 c2))⟩ k c = F k c := by
  show (lookupRow ix (ix.map (fun k2 => cols.map (fun c2 => F k2 c2))) k).bind
      (fun row => lookupCell cols row c) = F k c
  rw [lookupRow_map (fun k2 => cols.map (fun c2 => F k2 c2)) hk, Option.some_bind]
  exact lookupCell_map (fun c2 => F k c2) hc

theorem dfUpdate_cell_mem {α : Type} (df other : DataFrame α) {k : Int} {c : String}
    (hk : k ∈ df.index) (hc : c ∈ df.cols) :
    (df.dfUpdate other).cell k c = ((other.cell k c) <|> (df.cell k c)) :=
  cell_mk_map df.cols df.index (fun k2 c2 => (other.cell k2 c2) <|> (df.cell k2 c2)) hk hc

theorem dfUpdate_cell_of_other_none {α : Type} (df other : DataFrame α) (k : Int) (c : String)
    (h : other.cell k c = none) : (df.dfUpdate other).cell k c = df.cell k c := by
  by_cases hk : k ∈ df.index
  · by_cases hc : c ∈ df.cols
    · rw [dfUpdate_cell_mem df other hk hc, h, Option.none_orElse]
    · rw [@cell_not_mem_cols α (df.dfUpdate other) k c hc, @cell_not_mem_cols α df k c hc]
  · rw [@cell_not_mem_index α (df.dfUpdate other) k c hk, @cell_not_mem_index α df k c hk]

theorem lookupCell_assoc {α : Type} {nc : List (String × List α)}
    (g : String × List α → Option α) {p : String × List α}
    (hnd : (nc.map (fun q => q.1)).Nodup) (hp : p ∈ nc) :
    lookupCell (nc.map (fun q => q.1)) (nc.map g) p.1 = g p := by
  induction nc with
  | nil => cases hp
  | cons q t ih =>
    rw [List.map_cons, List.nodup_cons] at hnd
    rw [List.map_cons, List.map_cons]
    by_cases h : q.1 = p.1
    · have hq : p = q := by
        rcases List.mem_cons.mp hp with h2 | h2
        · exact h2
        · exfalso
          exact hnd.1 (by rw [h]; exact List.mem_map_of_mem _ h2)
      subst hq
      simp [lookupCell]
    · have ht : p ∈ t := by
        rcases List.mem_cons.mp hp with h2 | h2
        · exact absurd (congrArg Prod.fst h2).symm h
        · exact h2
      simp only [lookupCell, if_neg h]
      exact ih hnd.2 ht

theorem zip_of_maps_eq {α : Type} (nc : List (String × List α)) :
    ((nc.map (fun q => q.1)).zip (nc.map (fun q => q.2))) = nc := by
  rw [List.zip_map']
  exact List.map_id nc

theorem update_cols_patch_cell {α : Type} (nc : List (String × List α)) (n : Nat)
    (hnd : (nc.map (fun q => q.1)).Nodup) {p : String × List α} (hp : p ∈ nc)
    {i : Nat} (hi : i < n) :
    (mkDataFrameFromCols (nc.map (fun q => q.1)) (nc.map (fun q => q.2))
        ((List.range n).map (fun t => Int.ofNat t))).cell (Int.ofNat i) p.1 = p.2[i]? := by
  show (lookupRow ((List.range n).map (fun t => Int.ofNat t))
      ((List.range ((List.range n).map (fun t => Int.ofNat t)).length).map
        (fun t => ((nc.map (fun q => q.1)).zip (nc.map (fun q => q.2))).map
          (fun q => q.2[t]?)))
      (Int.ofNat i)).bind
      (fun row => lookupCell
        (((nc.map (fun q => q.1)).zip (nc.map (fun q => q.2))).map (fun q => q.1)) row p.1)
    = p.2[i]?
  rw [zip_of_maps_eq]
  rw [List.length_map, List.length_range]
  have hdata : (List.range n).map (fun t => nc.map (fun q => q.2[t]?)) =
      ((List.range n).map (fun t => Int.ofNat t)).map
        (fun k => nc.map (fun q => q.2[k.toNat]?)) := by
    rw [List.map_map]
    apply List.map_congr_left
    intro t _
    simp
  rw [hdata]
  rw [lookupRow_map (fun k => nc.map (fun q => q.2[k.toNat]?))
      (List.mem_map.mpr ⟨i, List.mem_range.mpr hi, rfl⟩)]
  rw [Option.some_bind]
  rw [lookupCell_assoc (fun q => q.2[(Int.ofNat i).toNat]?) hnd hp]
  simp

theorem getElem?_zip_eq {β γ : Type} : ∀ (l1 : List β) (l2 : List γ) (i : Nat),
    (l1.zip l2)[i]? = l1[i]?.bind (fun a => l2[i]?.map (fun b => (a, b)))
  | [], _, _ => by simp
  | _ :: _, [], _ => by simp
  | _ :: _, _ :: _, 0 => by simp
  | b :: t, c :: u, (i + 1) => by
    simp only [List.zip_cons_cons, List.getElem?_cons_succ]
    exact getElem?_zip_eq t u i

theorem colsUnion_self (a : List String) : colsUnion a a = a := by
  unfold colsUnion
  by_cases h : a = []
  · simp [h]
  · simp [h]

theorem indexUnion_eq_right {a b : List Int} (hs : List.Sorted (· < ·) b)
    (hnd : a.Nodup) (hsub : ∀ k ∈ a, k ∈ b) : indexUnion a b = b := by
  unfold indexUnion
  by_cases hb : b = []
  · subst hb
    have ha : a = [] := List.eq_nil_iff_forall_not_mem.mpr
      (fun x hx => List.not_mem_nil x (hsub x hx))
    simp [ha]
  · rw [if_neg hb]
    by_cases ha : a = []
    · rw [if_pos ha]
    · rw [if_neg ha]
      by_cases hab : a = b
      · rw [if_pos hab]
        exact hab
      · rw [if_neg hab]
        have hbnd : b.Nodup := hs.nodup
        have hLnd : (a ++ b.filter (fun k => decide (k ∉ a))).Nodup := by
          rw [List.nodup_append]
          refine ⟨hnd, List.Nodup.filter _ hbnd, ?_⟩
          intro x hx hx2
          have hpx := List.of_mem_filter hx2
          simp only [decide_eq_true_eq] at hpx
          exact hpx hx
        have hmem : ∀ x, x ∈ (a ++ b.filter (fun k => decide (k ∉ a))) ↔ x ∈ b := by
          intro x
          rw [List.mem_append, List.mem_filter]
          constructor
          · rintro (h | ⟨h, _⟩)
            · exact hsub x h
            · exact h
          · intro h
            by_cases hxa : x ∈ a
            · exact Or.inl hxa
            · exact Or.inr ⟨h, by simpa using hxa⟩
        have hperm : (a ++ b.filter (fun k => decide (k ∉ a))).Perm b :=
          (List.perm_ext_iff_of_nodup hLnd hbnd).mpr hmem
        have hperm2 : (List.insertionSort (· ≤ ·)
            (a ++ b.filter (fun k => decide (k ∉ a)))).Perm b :=
          (List.perm_insertionSort _ _).trans hperm
        exact List.eq_of_perm_of_sorted hperm2 (List.sorted_insertionSort _ _)
          (List.Pairwise.imp (fun h => le_of_lt h) hs)

theorem mkCols_eq_mkRows {α : Type} (headers : List String) (cols : List (List α))
    (rowMap : List (Int × List α)) (keys : List Int)
    (hclen : headers.length ≤ cols.length)
    (hkeys : rowMap.map (fun p => p.1) = keys)
    (htr : ∀ i, i < rowMap.length → ∀ j, j < headers.length →
      (rowMap[i]?.bind (fun p => p.2[j]?)) = (cols[j]?.bind (fun cl => cl[i]?))) :
    mkDataFrameFromCols headers cols keys = mkDataFrameFromRows rowMap headers := by
  have hlen : rowMap.length = keys.length := by
    rw [← hkeys, List.length_map]
  unfold mkDataFrameFromCols mkDataFrameFromRows
  simp only [DataFrame.mk.injEq]
  refine ⟨?_, hkeys.symm, ?_⟩
  · exact List.map_fst_zip headers cols hclen
  · apply List.ext_getElem?
    intro i2
    rw [List.getElem?_map, List.getElem?_map]
    by_cases hi2 : i2 < keys.length
    · rw [List.getElem?_range hi2]
      have hrm : i2 < rowMap.length := by
        rw [hlen]
        exact hi2
      rw [List.getElem?_eq_getElem hrm]
      simp only [Option.map_some']
      congr 1
      apply List.ext_getElem?
      intro j
      rw [List.getElem?_map, List.getElem?_map]
      by_cases hj : j < headers.length
      · rw [List.getElem?_range hj, getElem?_zip_eq]
        have hc2 : j < cols.length := lt_of_lt_of_le hj hclen
        rw [List.getElem?_eq_getElem hj, List.getElem?_eq_getElem hc2]
        have ht := htr i2 hrm j hj
        rw [List.getElem?_eq_getElem hrm, List.getElem?_eq_getElem hc2] at ht
        simp only [Option.some_bind] at ht
        simp only [Option.some_bind, Option.map_some', Option.some.injEq]
        exact ht.symm
      · have h1 : headers.length ≤ j := le_of_not_lt hj
        have hz : (headers.zip cols).length ≤ j := by
          rw [List.length_zip]
          exact le_trans (min_le_left _ _) h1
        rw [List.getElem?_eq_none hz]
        rw [List.getElem?_eq_none (by simpa using h1)]
        rfl
    · have h1 : keys.length ≤ i2 := le_of_not_lt hi2
      rw [List.getElem?_eq_none (by simpa using h1)]
      rw [List.getElem?_eq_none (by rw [hlen]; exact h1)]
      rfl

theorem combineFirst_eq_dfUpdate {α : Type} (nw df : DataFrame α)
    (hc : nw.cols = df.cols)
    (hs : List.Sorted (· < ·) df.index)
    (hnd : nw.index.Nodup)
    (hsub : ∀ k ∈ nw.index, k ∈ df.index) :
    nw.combineFirst df = df.dfUpdate nw := by
  simp only [DataFrame.combineFirst, DataFrame.dfUpdate]
  rw [hc, colsUnion_self, indexUnion_eq_right hs hnd hsub]

theorem mapM_ok {β γ : Type} (f : β → Except PyError γ) (g : β → γ) :
    ∀ (l : List β), (∀ x ∈ l, f x = Except.ok (g x)) → l.mapM f = Except.ok (l.map g)
  | [], _ => rfl
  | b :: t, h => by
    rw [List.mapM_cons, h b (List.mem_cons_self b t),
      mapM_ok f g t (fun x hx => h x (List.mem_cons_of_mem _ hx))]
    rfl

theorem slice_index_eq {α : Type} (r1 r2 : Int) : ∀ (ix : List Int)
    (data : List (List (Option α))), data.length = ix.length →
    (((ix.zip data).filter
        (fun q => decide (r1 ≤ q.1) && decide (q.1 ≤ r2 - 1))).map (fun q => q.1))
      = ix.filter (fun k => decide (r1 ≤ k) && decide (k < r2))
  | [], _, _ => by simp
  | k :: ks, [], h => by simp at h
  | k :: ks, d :: ds, h => by
    simp only [List.zip_cons_cons, List.filter_cons]
    have hdec : (decide (r1 ≤ k) && decide (k ≤ r2 - 1))
        = (decide (r1 ≤ k) && decide (k < r2)) := by
      rw [← Bool.decide_and, ← Bool.decide_and]
      exact decide_eq_decide.mpr (by omega)
    rw [hdec]
    by_cases hp : (decide (r1 ≤ k) && decide (k < r2)) = true
    · simp only [hp, if_true, List.map_cons]
      rw [slice_index_eq r1 r2 ks ds (by simpa using h)]
    · simp only [hp, if_false, Bool.false_eq_true]
      exact slice_index_eq r1 r2 ks ds (by simpa using h)

theorem slice_filter_pred {α : Type} (r1 r2 : Int) (ix : List Int)
    (data : List (List (Option α))) :
    (ix.zip data).filter (fun q => decide (r1 ≤ q.1) && decide (q.1 ≤ r2 - 1))
      = (ix.zip data).filter (fun q => decide (r1 ≤ q.1) && decide (q.1 < r2)) :=
  List.filter_congr (fun q _ => by
    rw [← Bool.decide_and, ← Bool.decide_and]
    exact decide_eq_decide.mpr (by omega))

theorem sorted_le_getLast : ∀ {l : List Int} {m : Int},
    List.Sorted (· < ·) l → l.getLast? = some m → ∀ k ∈ l, k ≤ m := by
  intro l
  induction l with
  | nil =>
    intro m _ hl
    cases hl
  | cons a t ih =>
    intro m hs hl k hk
    cases t with
    | nil =>
      have ham : a = m := by simpa using hl
      rcases List.mem_cons.mp hk with hrfl | h2
      · omega
      · cases h2
    | cons b t2 =>
      rw [List.getLast?_cons_cons] at hl
      rcases List.mem_cons.mp hk with hrfl | h2
      · subst hrfl
        have hm : m ∈ b :: t2 := by
          obtain ⟨hne, hme⟩ :=
            List.mem_getLast?_eq_getLast (show m ∈ (b :: t2).getLast? from hl)
          rw [hme]
          exact List.getLast_mem hne
        have := (List.sorted_cons.mp hs).1 m hm
        omega
      · exact ih (List.sorted_cons.mp hs).2 hl k h2

/-! Claim theorems. -/

/-- C9: for every Identifier built from a slot and a generation, the hash
of IDGroup equals the slot plus the generation arithmetically shifted
right (floor division by a power of two) by the number of decimal digits
of the absolute value of the generation, that digit count being one more
than the base ten logarithm. -/
theorem idgroup_hash_eq_digit_shift (slot gen : Int) :
    IDGroup.pyHash ⟨slot, gen⟩ =
      slot + Int.fdiv gen ((2 : Int) ^ (Nat.log 10 gen.natAbs + 1)) := by
  unfold IDGroup.pyHash pyShiftRight
  rw [numDigits_eq_log]

/-- C2: removing rows with a key list containing a key that is absent
from the row index reports a KeyError and returns the mirror frame
completely unchanged; no row is deleted and the column schema is
untouched. -/
theorem remove_rows_missing_key_all_or_nothing {α : Type} (df : DataFrame α)
    (key_list : List Int) (k : Int) (hk : k ∈ key_list) (hmiss : k ∉ df.index) :
    remove_rows key_list df = (df, some PyError.keyError) := by
  have hc : ¬ (key_list.all (fun k => decide (k ∈ df.index)) = true) := by
    simp only [List.all_eq_true, decide_eq_true_eq]
    intro hall
    exact hmiss (hall k hk)
  unfold remove_rows
  rw [if_neg hc]

/-- Witness for C2 at a concrete mirror: removing one present and one
absent key errors and leaves the frame as it was. -/
theorem remove_rows_missing_key_witness :
    remove_rows [0, 5] (⟨["a"], [0, 1], [[some 1], [some 2]]⟩ : DataFrame Int) =
      (⟨["a"], [0, 1], [[some 1], [some 2]]⟩, some PyError.keyError) :=
  remove_rows_missing_key_all_or_nothing _ _ 5 (by decide) (by decide)

/-- C8: get_selection with a name absent from the selections mapping
returns an empty frame carrying the current column schema and zero rows,
and raises nothing. -/
theorem get_selection_unknown_name_empty {α : Type} (st : TableState α) (nm : String)
    (h : lookupStr nm st.selections = none) :
    get_selection st nm = Except.ok ⟨st.dataframe.cols, [], []⟩ := by
  unfold get_selection
  rw [h]

/-- Witness for C8 at a concrete mirror and the unknown name missing. -/
theorem get_selection_unknown_name_witness :
    get_selection (⟨⟨["a"], [0], [[some (1 : Int)]]⟩, []⟩ : TableState Int) "missing" =
      Except.ok ⟨["a"], [], []⟩ :=
  get_selection_unknown_name_empty _ _ rfl

/-- C10: a stored Selection whose explicit row list and range list are
both None makes get_selection raise (pd.concat of an empty frame list is
a ValueError) instead of returning an empty shaped result. -/
theorem get_selection_empty_selection_raises :
    get_selection
      (⟨⟨["a"], [0], [[some (1 : Int)]]⟩, [("empty", ⟨"empty", none, none⟩)]⟩ : TableState Int)
      "empty" = Except.error PyError.valueError := by
  decide

/-- Counterexample for C1: on a one-row table with key 0, updating at the
fresh key 1 through update_rows inserts the new row, while update_rows2
with the transposed row map leaves the table unchanged, so the two
results differ. -/
theorem update_rows2_ne_update_rows_on_new_key :
    update_rows [1] [[99]] (⟨["a"], [0], [[some (10 : Int)]]⟩ : DataFrame Int) =
        ⟨["a"], [0, 1], [[some 10], [some 99]]⟩
      ∧ update_rows2 [(1, [99])] (⟨["a"], [0], [[some (10 : Int)]]⟩ : DataFrame Int) =
        ⟨["a"], [0], [[some 10]]⟩
      ∧ (⟨["a"], [0, 1], [[some (10 : Int)], [some 99]]⟩ : DataFrame Int) ≠
        ⟨["a"], [0], [[some 10]]⟩ :=
  ⟨by decide, by decide, by decide⟩

/-- Counterexample for C3: a stored selection listing rows as [3, 1] over
keys 0..3 is returned in listed order [3, 1], not in the ascending key
order [1, 3] the claim demands. -/
theorem get_selection_not_ascending :
    get_selection
      (⟨⟨["a"], [0, 1, 2, 3], [[some (0 : Int)], [some 10], [some 20], [some 30]]⟩,
        [("s", ⟨"s", some [3, 1], none⟩)]⟩ : TableState Int) "s" =
      Except.ok ⟨["a"], [3, 1], [[some 30], [some 10]]⟩
    ∧ ([3, 1] : List Int) ≠ [1, 3] :=
  ⟨by decide, by decide⟩

/-- Counterexample for C4: after a create that injects the method named
foo and an update whose methods_list names the method bar, the delegate
still carries exactly foo; the attachments do not reflect the most recent
message, because on_update re-runs no injection. -/
theorem attrs_not_replaced_on_update :
    (applyLifecycleSeq [(1, ⟨"foo", "m1"⟩), (2, ⟨"bar", "m2"⟩)] [] (initTableDelegate Int)
        [TableLifecycleMsg.create ⟨(1, 0), some "T", some [(1, 0)], none⟩,
         TableLifecycleMsg.update ⟨(1, 0), none, some [(2, 0)], none⟩]).map
      (fun s => s.attrs.map (fun p => p.1)) = Except.ok ["foo"]
    ∧ (Except.ok ["foo"] : Except PyError (List String)) ≠ Except.ok ["bar"] :=
  ⟨by decide, by decide⟩

/-- Counterexample for C5: injecting a method id whose slot is absent
from the registry raises KeyError instead of silently skipping the entry
and returning the unmodified delegate. -/
theorem inject_methods_missing_raises :
    inject_methods [] [(1, 0)] [] = Except.error PyError.keyError
    ∧ (Except.error PyError.keyError : Except PyError (List (String × CapInfo))) ≠
      Except.ok [] :=
  ⟨rfl, by decide⟩

/-- Counterexample for C6: on a table whose index order is [5, 2] the
next keys start after the final label 2, not after the maximum 5: three
inserted rows get keys 3, 4, 5, so the already used key 5 is reassigned
and the result differs from the claimed keys 6, 7, 8. -/
theorem insert_rows_not_max_key :
    insert_rows [[7], [8], [9]] (⟨["a"], [5, 2], [[some (1 : Int)], [some 2]]⟩ : DataFrame Int) =
      (⟨["a"], [5, 2, 3, 4, 5], [[some 1], [some 2], [some 7], [some 8], [some 9]]⟩, none)
    ∧ ([5, 2, 3, 4, 5] : List Int) ≠ [5, 2, 6, 7, 8]
    ∧ ¬ ([5, 2, 3, 4, 5] : List Int).Nodup :=
  ⟨by decide, by decide, by decide⟩

/-- Counterexample for C7: a table whose single row has key 10 is not
touched by update_cols with a full-length array, because the patch frame
carries the default labels 0..n-1 and aligns by label, not by position;
the claim demands the cell to become 99. -/
theorem update_cols_label_misaligned :
    update_cols [("a", [99])] (⟨["a"], [10], [[some (1 : Int)]]⟩ : DataFrame Int) =
      ⟨["a"], [10], [[some 1]]⟩
    ∧ some (1 : Int) ≠ some 99 :=
  ⟨by decide, by decide⟩

/-- C3 (amended): for a mirror with a monotonic row index and a stored
Selection whose explicit rows are all present and whose two parts are
both nonempty, get_selection returns the explicit rows in their listed
order followed by, for each half-open [from, to) range, the rows whose
key lies in the range in index order (exclusive upper bound, resolved
over key values); the parts are neither sorted nor deduplicated, so the
result is the ascending union only when the listed keys are already
ascending and below the ranges, as in the spec example. -/
theorem get_selection_concat_structure {α : Type} (st : TableState α) (nm : String)
    (sel : Selection) (rlist : List Int) (rngs : List (Int × Int))
    (hlook : lookupStr nm st.selections = some sel)
    (hrows : sel.rows = some rlist) (hne : rlist ≠ [])
    (hranges : sel.row_ranges = some rngs) (hrne : rngs ≠ [])
    (hmono : monotonicIndex st.dataframe.index = true)
    (hwf : st.dataframe.data.length = st.dataframe.index.length)
    (hsub : ∀ k ∈ rlist, k ∈ st.dataframe.index) :
    get_selection st nm = Except.ok
      ⟨st.dataframe.cols,
       rlist ++ (rngs.map (fun r => st.dataframe.index.filter
         (fun k => decide (r.1 ≤ k) && decide (k < r.2)))).flatten,
       (rlist.map (fun k => st.dataframe.cols.map (fun c2 => st.dataframe.cell k c2)))
         ++ (rngs.map (fun r => ((st.dataframe.index.zip st.dataframe.data).filter
             (fun q => decide (r.1 ≤ q.1) && decide (q.1 < r.2))).map
             (fun q => q.2))).flatten⟩ := by
  obtain ⟨r0, rt, hrl⟩ := List.exists_cons_of_ne_nil hne
  subst hrl
  obtain ⟨g0, gt, hgl⟩ := List.exists_cons_of_ne_nil hrne
  subst hgl
  have hall : (r0 :: rt).all (fun k => decide (k ∈ st.dataframe.index)) = true := by
    rw [List.all_eq_true]
    intro k hk
    exact decide_eq_true (hsub k hk)
  have hloc : locList st.dataframe (r0 :: rt) = Except.ok
      ⟨st.dataframe.cols, r0 :: rt,
       (r0 :: rt).map (fun k => st.dataframe.cols.map (fun c2 => st.dataframe.cell k c2))⟩ := by
    unfold locList
    rw [if_pos hall]
  have hslice : ∀ r : Int × Int, locSlice st.dataframe r.1 (r.2 - 1) = Except.ok
      ⟨st.dataframe.cols,
       st.dataframe.index.filter (fun k => decide (r.1 ≤ k) && decide (k < r.2)),
       ((st.dataframe.index.zip st.dataframe.data).filter
         (fun q => decide (r.1 ≤ q.1) && decide (q.1 < r.2))).map (fun q => q.2)⟩ := by
    intro r
    unfold locSlice
    rw [if_pos hmono]
    refine congrArg Except.ok ?_
    rw [DataFrame.mk.injEq]
    refine ⟨rfl, ?_, ?_⟩
    · exact slice_index_eq r.1 r.2 st.dataframe.index st.dataframe.data hwf
    · rw [slice_filter_pred r.1 r.2 st.dataframe.index st.dataframe.data]
  have hmapm := mapM_ok (fun r => locSlice st.dataframe r.1 (r.2 - 1))
    (fun r => (⟨st.dataframe.cols,
      st.dataframe.index.filter (fun k => decide (r.1 ≤ k) && decide (k < r.2)),
      ((st.dataframe.index.zip st.dataframe.data).filter
        (fun q => decide (r.1 ≤ q.1) && decide (q.1 < r.2))).map (fun q => q.2)⟩
      : DataFrame α))
    (g0 :: gt) (fun r _ => hslice r)
  simp only [get_selection, hlook, hrows, hranges, truthyList, Option.getD_some, if_true,
    hloc, hmapm, List.cons_append, List.nil_append]
  simp only [concatFrames, List.map_map, Function.comp_def]
  rfl

/-- Witness for C3: the spec example, a table keyed 0..9 with a stored
selection of explicit rows [1, 3] and ranges [(5, 8)], returns exactly
the rows 1, 3, 5, 6, 7 in ascending order. -/
theorem get_selection_concat_witness :
    get_selection
      (⟨⟨["a"], [0, 1, 2, 3, 4, 5, 6, 7, 8, 9],
        [[some (0 : Int)], [some 1], [some 2], [some 3], [some 4], [some 5], [some 6],
         [some 7], [some 8], [some 9]]⟩,
        [("sel", ⟨"sel", some [1, 3], some [(5, 8)]⟩)]⟩ : TableState Int) "sel"
      = Except.ok ⟨["a"], [1, 3, 5, 6, 7],
        [[some 1], [some 3], [some 5], [some 6], [some 7]]⟩ := by
  have h := get_selection_concat_structure
    (⟨⟨["a"], [0, 1, 2, 3, 4, 5, 6, 7, 8, 9],
      [[some (0 : Int)], [some 1], [some 2], [some 3], [some 4], [some 5], [some 6],
       [some 7], [some 8], [some 9]]⟩,
      [("sel", ⟨"sel", some [1, 3], some [(5, 8)]⟩)]⟩ : TableState Int) "sel"
    ⟨"sel", some [1, 3], some [(5, 8)]⟩ [1, 3] [(5, 8)]
    (by decide) rfl (by decide) rfl (by decide) (by decide) (by decide) (by decide)
  rw [h]
  decide

/-- C1 (amended): over a mirror whose row index is strictly ascending,
for distinct keys that are all already present in the index, one column
list per current column, and a row map carrying exactly the transposed
values (entry i of the map holds key i and, at position j, the value of
column j at position i), update_by_keys produces a state identical to
update_by_columns.  For a key not yet present the two paths diverge, as
the counterexample shows. -/
theorem update_rows2_eq_update_rows_of_keys_present {α : Type} (df : DataFrame α)
    (keys : List Int) (cols : List (List α)) (rowMap : List (Int × List α))
    (hs : List.Sorted (· < ·) df.index)
    (hnd : keys.Nodup)
    (hsub : ∀ k ∈ keys, k ∈ df.index)
    (hclen : df.cols.length ≤ cols.length)
    (hkeys : rowMap.map (fun p => p.1) = keys)
    (htr : ∀ i, i < rowMap.length → ∀ j, j < df.cols.length →
      (rowMap[i]?.bind (fun p => p.2[j]?)) = (cols[j]?.bind (fun cl => cl[i]?))) :
    update_rows keys cols df = update_rows2 rowMap df := by
  have hN : mkDataFrameFromCols df.cols cols keys = mkDataFrameFromRows rowMap df.cols :=
    mkCols_eq_mkRows df.cols cols rowMap keys hclen hkeys htr
  show (mkDataFrameFromCols df.cols cols keys).combineFirst df =
    df.dfUpdate (mkDataFrameFromRows rowMap df.cols)
  rw [← hN]
  apply combineFirst_eq_dfUpdate
  · show (df.cols.zip cols).map (fun p => p.1) = df.cols
    exact List.map_fst_zip df.cols cols hclen
  · exact hs
  · exact hnd
  · exact hsub

/-- Witness for C1 at a concrete two column mirror keyed 0..1, updating
the present key 1: the two update paths agree. -/
theorem update_rows2_eq_update_rows_witness :
    update_rows [1] [[7], [8]]
        (⟨["a", "b"], [0, 1],
          [[some (10 : Int), some 20], [some 30, some 40]]⟩ : DataFrame Int) =
      update_rows2 [(1, [7, 8])]
        (⟨["a", "b"], [0, 1],
          [[some (10 : Int), some 20], [some 30, some 40]]⟩ : DataFrame Int) :=
  update_rows2_eq_update_rows_of_keys_present _ [1] [[7], [8]] [(1, [7, 8])]
    (by decide) (by decide) (by decide) (by decide) (by decide) (by decide)

/-- C7 (amended): update_cols builds its patch frame with the default
integer labels 0..n-1 and merges by label, not by position; the column
list, the row index and hence the row count are always unchanged, a
column not named in the map keeps every cell, and when the current row
index is exactly 0..n-1 in order each named existing column is
overwritten cell for cell aligned with the index order. -/
theorem update_cols_positional_when_range_index {α : Type} (df : DataFrame α)
    (nc : List (String × List α))
    (hidx : df.index = (List.range df.index.length).map (fun t => Int.ofNat t))
    (hlen : ∀ p ∈ nc, p.2.length = df.index.length)
    (hnd : (nc.map (fun p => p.1)).Nodup) :
    (update_cols nc df).cols = df.cols
    ∧ (update_cols nc df).index = df.index
    ∧ (∀ c, c ∉ nc.map (fun p => p.1) → ∀ k, (update_cols nc df).cell k c = df.cell k c)
    ∧ (∀ p ∈ nc, p.1 ∈ df.cols → ∀ i : Nat, i < df.index.length →
        (update_cols nc df).cell (Int.ofNat i) p.1 = p.2[i]?) := by
  refine ⟨rfl, rfl, ?_, ?_⟩
  · intro c hc k
    apply dfUpdate_cell_of_other_none
    apply cell_not_mem_cols
    show c ∉ ((nc.map (fun p => p.1)).zip (nc.map (fun p => p.2))).map (fun p => p.1)
    rw [zip_of_maps_eq]
    exact hc
  · intro p hp hpc i hi
    have hne : nc ≠ [] := by
      intro h
      rw [h] at hp
      cases hp
    obtain ⟨q, t, hqt⟩ := List.exists_cons_of_ne_nil hne
    subst hqt
    have hq2 : q.2.length = df.index.length := hlen q (List.mem_cons_self q t)
    have hk : Int.ofNat i ∈ df.index := by
      rw [hidx]
      exact List.mem_map.mpr ⟨i, List.mem_range.mpr hi, rfl⟩
    show (df.dfUpdate (mkDataFrameFromCols ((q :: t).map (fun p => p.1))
        ((q :: t).map (fun p => p.2))
        ((List.range q.2.length).map (fun t2 => Int.ofNat t2)))).cell (Int.ofNat i) p.1
      = p.2[i]?
    rw [dfUpdate_cell_mem df _ hk hpc]
    rw [update_cols_patch_cell (q :: t) q.2.length hnd hp (show i < q.2.length by omega)]
    have hip : i < p.2.length := by
      rw [hlen p hp]
      exact hi
    rw [List.getElem?_eq_getElem hip, Option.some_orElse]

/-- Witness for C7 at a concrete mirror keyed 0..1: the named column b is
overwritten positionally and the unnamed column a is untouched. -/
theorem update_cols_positional_witness :
    (update_cols [("b", [50, 60])]
        (⟨["a", "b"], [0, 1], [[some (1 : Int), some 2], [some 3, some 4]]⟩ : DataFrame Int)).cell
        (Int.ofNat 1) "b" = [(50 : Int), 60][1]?
    ∧ (update_cols [("b", [50, 60])]
        (⟨["a", "b"], [0, 1], [[some (1 : Int), some 2], [some 3, some 4]]⟩ : DataFrame Int)).cell
        0 "a" =
      (⟨["a", "b"], [0, 1], [[some (1 : Int), some 2], [some 3, some 4]]⟩ : DataFrame Int).cell
        0 "a" := by
  have h := update_cols_positional_when_range_index
    (⟨["a", "b"], [0, 1], [[some (1 : Int), some 2], [some 3, some 4]]⟩ : DataFrame Int)
    [("b", [50, 60])] (by decide) (by decide) (by decide)
  exact ⟨h.2.2.2 ("b", [50, 60]) (by decide) (by decide) 1 (by decide),
         h.2.2.1 "a" (by decide) 0⟩

/-- C6 (amended): on a table whose index is nonempty with final label m,
insert appends exactly one row per element with consecutive integer keys
m + 1, m + 2, ...; when the row index is sorted ascending the final label
is the maximum key, so every new key exceeds every existing key and no
key that is present is ever reassigned. -/
theorem insert_rows_appends_consecutive {α : Type} (df : DataFrame α)
    (rows : List (List α)) (m : Int)
    (hlast : df.index.getLast? = some m)
    (hs : List.Sorted (· < ·) df.index) :
    insert_rows rows df =
      (⟨df.cols, df.index ++ (List.range rows.length).map (fun i => m + 1 + (i : Int)),
        df.data ++ rows.map (fun r => (List.range df.cols.length).map (fun j => r[j]?))⟩, none)
    ∧ (∀ k ∈ df.index, k ≤ m)
    ∧ (∀ i : Nat, (m + 1 + (i : Int)) ∉ df.index) := by
  have hmax := sorted_le_getLast hs hlast
  refine ⟨?_, hmax, ?_⟩
  · unfold insert_rows
    rw [hlast]
  · intro i hi
    have := hmax _ hi
    omega

/-- Witness for C6 at a concrete sorted mirror: two inserted rows get
keys 2 and 3, and the first new key 2 was not previously present. -/
theorem insert_rows_appends_witness :
    insert_rows [[7], [8]] (⟨["a"], [0, 1], [[some (5 : Int)], [some 6]]⟩ : DataFrame Int) =
      (⟨["a"], [0, 1, 2, 3], [[some 5], [some 6], [some 7], [some 8]]⟩, none)
    ∧ (2 : Int) ∉ (⟨["a"], [0, 1], [[some (5 : Int)], [some 6]]⟩ : DataFrame Int).index := by
  have h := insert_rows_appends_consecutive
    (⟨["a"], [0, 1], [[some (5 : Int)], [some 6]]⟩ : DataFrame Int) [[7], [8]] 1
    (by decide) (by decide)
  refine ⟨?_, ?_⟩
  · rw [h.1]
    decide
  · have h2 := h.2.2 0
    intro hc
    apply h2
    have he : (1 : Int) + 1 + ((0 : Nat) : Int) = 2 := by norm_num
    rw [he]
    exact hc

/-- C4 (amended): capability injection runs only on create messages;
on_update leaves the delegate state, and in particular its injected
attachments, unchanged, so any create and update sequence produces
exactly the state produced by its create messages alone.  Attachments
therefore accumulate across creates instead of reflecting the most
recent message. -/
theorem attrs_determined_by_creates {α : Type} (mstate sstate : List (Int × CapInfo))
    (msgs : List TableLifecycleMsg) (d : TableDelegateState α) :
    applyLifecycleSeq mstate sstate d msgs =
      applyLifecycleSeq mstate sstate d (msgs.filter isCreateMsg) := by
  induction msgs generalizing d with
  | nil => rfl
  | cons m ms ih =>
    cases m with
    | create msg =>
      have hf : (TableLifecycleMsg.create msg :: ms).filter isCreateMsg =
          TableLifecycleMsg.create msg :: ms.filter isCreateMsg := by
        simp [List.filter_cons, isCreateMsg]
      rw [hf]
      show (on_new mstate sstate msg d).bind
            (fun d2 => applyLifecycleSeq mstate sstate d2 ms) =
          (on_new mstate sstate msg d).bind
            (fun d2 => applyLifecycleSeq mstate sstate d2 (ms.filter isCreateMsg))
      cases on_new mstate sstate msg d with
      | error e => rfl
      | ok d2 => exact ih d2
    | update msg =>
      have hf : (TableLifecycleMsg.update msg :: ms).filter isCreateMsg =
          ms.filter isCreateMsg := by
        simp [List.filter_cons, isCreateMsg]
      rw [hf]
      exact ih d

/-- C5 (amended): for every registry state, id list and starting
attribute set, when every id resolves the injection succeeds and each
found info is attached and discoverable under its declared name; when
some id does not resolve the call raises KeyError instead of silently
skipping the entry. -/
theorem inject_methods_strict_lookup (state : List (Int × CapInfo)) (ids : List (Int × Int))
    (attrs : List (String × CapInfo)) :
    ((∀ id ∈ ids, (lookupInt id.1 state).isSome = true) →
      ∃ a2, inject_methods state ids attrs = Except.ok a2 ∧
        ∀ id ∈ ids, ∀ m, lookupInt id.1 state = some m →
          a2.any (fun p => decide (p.1 = m.name)) = true)
    ∧ ((∃ id ∈ ids, lookupInt id.1 state = none) →
      inject_methods state ids attrs = Except.error PyError.keyError) :=
  ⟨fun h => inject_methods_all_found state ids attrs h,
   fun h => inject_methods_miss state ids attrs h⟩

/-- Witness for C5: on a registry holding only slot 1 with name foo,
injecting id (1, 0) succeeds with foo attached, while injecting id (2, 0)
raises KeyError. -/
theorem inject_methods_strict_witness :
    (∃ a2, inject_methods ([(1, ⟨"foo", "d1"⟩)] : List (Int × CapInfo)) [(1, 0)] []
        = Except.ok a2 ∧
      ∀ id ∈ ([(1, 0)] : List (Int × Int)), ∀ m : CapInfo,
        lookupInt id.1 ([(1, ⟨"foo", "d1"⟩)] : List (Int × CapInfo)) = some m →
          a2.any (fun p => decide (p.1 = m.name)) = true)
    ∧ inject_methods ([(1, ⟨"foo", "d1"⟩)] : List (Int × CapInfo)) [(2, 0)] []
        = Except.error PyError.keyError :=
  ⟨(inject_methods_strict_lookup [(1, ⟨"foo", "d1"⟩)] [(1, 0)] []).1 (by decide),
   (inject_methods_strict_lookup [(1, ⟨"foo", "d1"⟩)] [(2, 0)] []).2 ⟨(2, 0), by decide, rfl⟩⟩

end Penne
